import Mathlib

/-!
Verification of the WordPress-to-Shopify product conversion engine
(`optimized_wordpress_to_shopify_v2.py`).

The engine is a pure transformation from a hierarchical product table
(parent records plus child variant records) to a flat list of output rows.
We embed the transformation shallowly:

* pandas cells are modelled as `Option String` — `none` is a missing column
  or a NaN cell (both are treated identically by the source: every access to
  an attribute cell is guarded by `col in row and not pd.isna(row[col])`,
  and `pd.read_csv` maps empty cells to NaN).  The `int`/`float` branches of
  the source (e.g. in `get_option_values`) handle numeric dtypes, which this
  string-cell model does not represent; they are noted where they occur.
* Python `str` operations (`split`, `strip`, `lower`, `replace`,
  `startswith`, `in`, `capitalize`) are re-implemented below over `List Char`
  by structural recursion so that every definition evaluates inside the
  kernel; their semantics is that of the Python operations on ASCII data.
* Python dict rows are modelled by the structure `Row` whose fields are
  `Option`-valued: `none` means the key is absent from the dict.
-/

/-! ## Python string primitives -/

/-- Python `s.split(sep)` for a one-character separator: keeps empty pieces,
returns `[s]` for the empty string. -/
def splitChar (sep : Char) : List Char → List (List Char)
  | [] => [[]]
  | c :: cs =>
    match splitChar sep cs with
    | [] => [[]]
    | h :: t => if c = sep then [] :: h :: t else (c :: h) :: t

/-- Leading-whitespace removal, the first half of Python `str.strip()`. -/
def trimLeftChars : List Char → List Char
  | [] => []
  | c :: cs => if c.isWhitespace then trimLeftChars cs else c :: cs

/-- Python `str.strip()` over a character list. -/
def trimChars (l : List Char) : List Char :=
  ((trimLeftChars l.reverse).reverse |> trimLeftChars)

/-- Python `s.strip()`. -/
def pyStrip (s : String) : String := String.mk (trimChars s.toList)

/-- Python `s.split(sep)` for a one-character separator. -/
def pySplit (sep : Char) (s : String) : List String :=
  (splitChar sep s.toList).map String.mk

/-- Python `s.lower()` (ASCII). -/
def pyLower (s : String) : String := String.mk (s.toList.map Char.toLower)

/-- Python `s.startswith(pre)`. -/
def pyStartswith (pre s : String) : Bool := List.isPrefixOf pre.toList s.toList

/-- Python `s.capitalize()`: first character upper-cased, the rest lower-cased. -/
def pyCapitalize (s : String) : String :=
  match s.toList with
  | [] => s
  | c :: cs => String.mk (c.toUpper :: cs.map Char.toLower)

/-- Python `sub in s` (substring containment). -/
def pyInStr (sub s : String) : Bool :=
  (List.range (s.toList.length + 1)).any fun i =>
    List.isPrefixOf sub.toList (s.toList.drop i)

/-- Python `sep in s` for a one-character needle (used for `'|' in value`). -/
def pyInChar (c : Char) (s : String) : Bool := s.toList.contains c

/-- Replace every non-overlapping occurrence of `pat` (non-empty) left to
right, the semantics of Python `s.replace(pat, repl)`.  The fuel argument
makes the recursion structural; it is called with `fuel = s.length`, which
is always sufficient because each step consumes at least one character. -/
def replaceFuel (pat repl : List Char) : Nat → List Char → List Char
  | _, [] => []
  | 0, l => l
  | fuel + 1, c :: cs =>
    if pat ≠ [] ∧ List.isPrefixOf pat (c :: cs) then
      repl ++ replaceFuel pat repl fuel ((c :: cs).drop pat.length)
    else
      c :: replaceFuel pat repl fuel cs

/-- Python `s.replace(pat, repl)`. -/
def pyReplace (s pat repl : String) : String :=
  String.mk (replaceFuel pat.toList repl.toList s.toList.length s.toList)

/-- Python `', '.join(parts)`-style joining. -/
def pyJoin (sep : String) (parts : List String) : String :=
  String.mk (List.intercalate sep.toList (parts.map String.toList))

/-- Lexicographic code-point comparison, the order used by Python `sorted`
on strings. -/
def charListLe : List Char → List Char → Bool
  | [], _ => true
  | _ :: _, [] => false
  | a :: as, b :: bs => if a = b then charListLe as bs else decide (a < b)

/-- Python `a <= b` on strings. -/
def pyLe (a b : String) : Bool := charListLe a.toList b.toList

/-- Insert into a `pyLe`-sorted list, keeping it sorted. -/
def insertSorted (x : String) : List String → List String
  | [] => [x]
  | y :: ys => if pyLe x y then x :: y :: ys else y :: insertSorted x ys

/-- Insertion sort by `pyLe`: the semantics of Python `sorted` on a list of
strings (stability is irrelevant here because the inputs are duplicate-free). -/
def sortStrings : List String → List String
  | [] => []
  | x :: xs => insertSorted x (sortStrings xs)

/-- Distinct elements of a list: the semantics of building a Python `set`
before sorting it (the pre-sort order is irrelevant). -/
def dedup : List String → List String
  | [] => []
  | x :: xs => if x ∈ dedup xs then dedup xs else x :: dedup xs

/-- Python `sorted(set(l))`. -/
def sortedSet (l : List String) : List String := sortStrings (dedup l)

/-! ## Data model

`Record` is one row of the input table (a parent or child product record).
Cells are `Option String`; the `meta:attribute_pa_*` columns live in the
association list `attrs`, keyed by full column name. -/

structure Record where
  post_title : String
  post_excerpt : Option String
  post_status : String
  regular_price : Option String
  sale_price : Option String
  images : Option String
  tax_product_cat : Option String
  attrs : List (String × String)
  deriving DecidableEq

/-- Cell access for an attribute column: `none` means the column is absent
from the record or holds NaN (the source guards every such access with
`col in row and not pd.isna(row[col])`). -/
def getAttr (r : Record) (col : String) : Option String := List.lookup col r.attrs

/-- One parsed image entry, the dict `{'url': ..., 'alt': ...}` built by
`parse_images` (its position is its 1-based index in the returned list). -/
structure Img where
  url : String
  alt : String
  deriving DecidableEq

/-- One output row; a field valued `none` models a key that is absent from
the Python row dict.  `options` is the ordered list of
`(OptionK Name, OptionK Value)` pairs, K being the 1-based list index, and
`metafields` the ordered list of dynamic metafield columns. -/
structure Row where
  handle : Option String := none
  title : Option String := none
  body_html : Option String := none
  published : Option String := none
  tags : Option String := none
  category : Option String := none
  sub_category : Option String := none
  metafields : List (String × String) := []
  image_src : Option String := none
  image_alt_text : Option String := none
  image_position : Option Nat := none
  variant_price : Option String := none
  variant_compare_at_price : Option String := none
  variant_image : Option String := none
  options : List (String × String) := []
  deriving DecidableEq

/-- The carried per-product state `previous_variant_data`. -/
structure VariantData where
  price : String
  compare_price : String
  image : String
  deriving DecidableEq

/-- One metafield attribute descriptor, as produced by
`get_metafield_attributes` (`original` is the source column name,
`field_name` the output column name). -/
structure MetaAttr where
  original : String
  field_name : String
  deriving DecidableEq

/-! ## Image Descriptor Parser (`parse_images`, source lines 17-37) -/

/-- Alt-text extraction from the pieces after the first `!`: the first piece
whose stripped form starts with `alt :` yields, after removing every
occurrence of `alt :` and stripping, the alt text; otherwise empty. -/
def parseAlt (parts : List String) : String :=
  match parts.find? (fun part => pyStartswith (r"alt :") (pyStrip part)) with
  | some part => pyStrip (pyReplace part (r"alt :") (r""))
  | none => r""

/-- Function `parse_images`: split on `|`, strip each segment, drop empty segments;
each surviving segment is split on `!`, the first piece (stripped) is the
URL, and the alt text comes from `parseAlt` on the remaining pieces. -/
def parse_images : Option String → List Img
  | none => []
  | some s =>
    (((pySplit '|' s).map pyStrip).filter (fun seg => seg != r"")).map fun seg =>
      let parts := pySplit '!' seg
      { url := pyStrip (parts.headD (r"")), alt := parseAlt parts.tail }

/-! ## Category/Tag Extractor (`extract_tags` lines 39-58,
`extract_category_info` lines 147-164) -/

/-- Function `extract_tags` in its default mode (`single_tag_mode=False`, the only
mode the conversion path uses): the last non-empty `>`-level of each
`|`-separated path, deduplicated, sorted and joined with `, `.  For a NaN
input the source returns the empty list, which no caller distinguishes from
the empty string used here. -/
def extract_tags : Option String → String
  | none => r""
  | some s =>
    let tags := (pySplit '|' s).filterMap fun category =>
      let parts := (pySplit '>' category).map pyStrip
      match parts.getLast? with
      | some t => let tag := pyStrip t; if tag = r"" then none else some tag
      | none => none
    pyJoin (r", ") (sortedSet tags)

/-- The category/subcategory pair extracted by `extract_category_info`. -/
structure CategoryInfo where
  category : String
  subcategory : String
  deriving DecidableEq

/-- Function `extract_category_info`: from the first `|`-path with at least three
`>`-levels, category is level 1 and subcategory level 2; empty otherwise. -/
def extract_category_info : Option String → CategoryInfo
  | none => { category := r"", subcategory := r"" }
  | some s =>
    let cats := (pySplit '|' s).filterMap fun category =>
      let parts := (pySplit '>' category).map pyStrip
      match parts with
      | _ :: c1 :: c2 :: _ =>
        some { category := pyStrip c1, subcategory := pyStrip c2 }
      | _ => none
    cats.headD { category := r"", subcategory := r"" }

/-! ## Attribute Catalog Builder (`get_option_values` lines 115-130,
`get_metafield_values` lines 60-77) -/

/-- Split a cell on `|`, strip the pieces and drop the empty ones. -/
def splitTrimFilter (v : String) : List String :=
  ((pySplit '|' v).map pyStrip).filter (fun x => x != r"")

/-- Function `get_option_values`: the sorted set of values occurring for the column
`meta:attribute_pa_<option_name>` across the child records, each cell
pipe-split, stripped and filtered of empties.  (The source's `int`/`float`
branch applies only to numeric dtypes, unrepresentable in the string-cell
model; the string branch always splits on `|`, which for a pipe-free cell
yields the whole stripped cell.) -/
def get_option_values (children : List Record) (option_name : String) : List String :=
  sortedSet (children.foldl (fun acc row =>
    match getAttr row ((r"meta:attribute_pa_") ++ option_name) with
    | none => acc
    | some v => acc ++ splitTrimFilter v) [])

/-- Function `get_metafield_values`: like `get_option_values` but keyed by full
column name and with the source's explicit pipe test (equivalent for string
cells: a pipe-free cell contributes its stripped value when non-empty). -/
def get_metafield_values (children : List Record) (col_name : String) : List String :=
  sortedSet (children.foldl (fun acc row =>
    match getAttr row col_name with
    | none => acc
    | some v =>
      if pyInChar '|' v then acc ++ splitTrimFilter v
      else
        let val := pyStrip v
        if val != r"" then acc ++ [val] else acc) [])

-- quick sanity examples (claim-independent)
example : parse_images (some (r"http://a.jpg!alt :Red|http://b.jpg")) =
    [{ url := r"http://a.jpg", alt := r"Red" }, { url := r"http://b.jpg", alt := r"" }] := by
  decide

example : extract_tags (some (r"All > Shoes > Running|All > Shoes > Trail")) =
    r"Running, Trail" := by decide

/-! ## Cascading image resolver (`get_variant_image`, source lines 132-145) -/

/-- Function `get_variant_image`: the matched child's own first parsed image URL if
its `images` cell parses to a non-empty list; else the first parent image
whose lower-cased URL contains (substring) some lower-cased combination
value; else the previous carried image (the source's
`previous_image if previous_image else ''` equals `previous_image` for
strings, mirrored literally here). -/
def get_variant_image (variant_row : Record) (parent_images : List Img)
    (attribute_values : List String) (previous_image : String) : String :=
  let fromParent : Option String :=
    (parent_images.find? fun img =>
      attribute_values.any fun attr_val =>
        pyInStr (pyLower attr_val) (pyLower img.url)).map (fun img => img.url)
  match variant_row.images with
  | some s =>
    match parse_images (some s) with
    | i :: _ => i.url
    | [] =>
      match fromParent with
      | some u => u
      | none => if previous_image != r"" then previous_image else r""
  | none =>
    match fromParent with
    | some u => u
    | none => if previous_image != r"" then previous_image else r""

/-! ## Child Row Matcher (source lines 283-300) -/

/-- The per-child match test of the combination loop: for every
`(attribute, value)` pair of the combination, a present cell must contain
the value — pipe-split with stripped pieces when the cell contains `|`,
compared whole and unstripped otherwise; a missing (NaN) cell never
disqualifies. -/
def childMatches (attr_names : List String) (combo : List String) (child : Record) : Bool :=
  (attr_names.zip combo).all fun q =>
    match getAttr child ((r"meta:attribute_pa_") ++ q.1) with
    | none => true
    | some cv =>
      let child_values := if pyInChar '|' cv then (pySplit '|' cv).map pyStrip else [cv]
      child_values.contains q.2

/-- The `matching_child` scan: first child in original order passing
`childMatches`; `none` when no child matches. -/
def findMatchingChild (children : List Record) (attr_names : List String)
    (combo : List String) : Option Record :=
  children.find? (childMatches attr_names combo)

/-! ## Variant Matrix Generator (source lines 272-279) -/

/-- Semantics of `itertools.product(*attr_values)`: full cartesian product, first list
varying slowest, last list varying fastest. -/
def cartProd : List (List String) → List (List String)
  | [] => [[]]
  | v :: vs => (v.map fun a => (cartProd vs).map fun c => a :: c).flatten

/-- The primary combination: each attribute's first value,
`tuple(v[0] for v in attr_values)`. -/
def primaryCombo (attr_values : List (List String)) : List String :=
  attr_values.map fun v => v.headD (r"")

/-- The combinations the variant loop iterates over: the cartesian product
with every occurrence of the primary combination skipped (the loop `continue`). -/
def nonPrimaryCombos (attr_values : List (List String)) : List (List String) :=
  (cartProd attr_values).filter fun c => c != primaryCombo attr_values

/-! ## Row Assembler (`create_variant_rows`, source lines 166-333)

The function is decomposed into named pieces mirroring the source blocks;
`create_variant_rows` at the end reassembles them exactly in source order. -/

/-- The metafield value for one metafield attribute (source lines 183-198):
newline-joined sorted child values; else the parent's own cell, pipe-split
and sorted when delimited, verbatim otherwise; else empty. -/
def metafieldValueFor (parent_row : Record) (children : List Record)
    (attr : MetaAttr) : String :=
  let values := get_metafield_values children attr.original
  if values ≠ [] then pyJoin (String.mk ['\n']) values
  else
    match getAttr parent_row attr.original with
    | some v =>
      if pyInChar '|' v then
        pyJoin (String.mk ['\n']) (sortStrings (((pySplit '|' v).map pyStrip).filter
          (fun x => x != r"")))
      else v
    | none => r""

/-- Python `str(b).lower()` for a bool. -/
def strOfBool : Bool → String
  | true => r"true"
  | false => r"false"

/-- The `base_row` dict (source lines 172-198): Handle, Title, Body, Published, Tags,
category metafields, plus the dynamic metafield columns. -/
def mkBaseRow (parent_row : Record) (children : List Record)
    (metafield_attrs : List MetaAttr) : Row :=
  let category_info := extract_category_info parent_row.tax_product_cat
  { handle := some parent_row.post_title,
    title := some parent_row.post_title,
    body_html := some (parent_row.post_excerpt.getD (r"")),
    published := some (strOfBool (parent_row.post_status == r"publish")),
    tags := some (extract_tags parent_row.tax_product_cat),
    category := some category_info.category,
    sub_category := some category_info.subcategory,
    metafields := metafield_attrs.map fun attr =>
      (attr.field_name, metafieldValueFor parent_row children attr) }

/-- The `attribute_values` dict (source lines 209-213): each variant attribute with
its non-empty child value set, in attribute order. -/
def attributeValuesOf (children : List Record) (variant_attrs : List String) :
    List (String × List String) :=
  variant_attrs.filterMap fun attr =>
    let values := get_option_values children attr
    if values = [] then none else some (attr, values)

/-- The first-row option loop (source lines 242-249): renames `sizes` to
`Size`, overwrites `Image Alt Text` with the first value of a color
attribute, and appends capitalized `OptionK Name`/`OptionK Value` pairs. -/
def addFirstRowOptions : List (String × List String) → Row → Row
  | [], r => r
  | q :: rest, r =>
    let name1 := if pyLower q.1 == r"sizes" then (r"Size") else q.1
    let r1 := if pyLower name1 == r"color" then
        { r with image_alt_text := some (q.2.headD (r"")) }
      else r
    addFirstRowOptions rest
      { r1 with options := r1.options ++ [(pyCapitalize name1, q.2.headD (r""))] }

/-- The `previous_variant_data` value carried out of a row (the source's
`row.get(key, '')` reads). -/
def carriedFrom (r : Row) : VariantData :=
  { price := r.variant_price.getD (r""),
    compare_price := r.variant_compare_at_price.getD (r""),
    image := r.variant_image.getD (r"") }

/-- The primary row and the carried state after it (source lines 215-254):
first image fields when images exist; with a first child, its price fields
with fallback to the parental initial state, its resolved variant image,
carried-state update, then the option loop; with no children, the parental
initial prices and no options. -/
def mkFirstRow (children : List Record) (av : List (String × List String))
    (parent_images : List Img) (base_row : Row) (prev0 : VariantData) :
    Row × VariantData :=
  let fr :=
    match parent_images with
    | img0 :: _ =>
      { base_row with
        image_src := some img0.url,
        image_alt_text := some img0.alt,
        image_position := some 1 }
    | [] => base_row
  match children with
  | first_variant :: _ =>
    let price := first_variant.sale_price.getD
      (first_variant.regular_price.getD prev0.price)
    let compare := first_variant.regular_price.getD prev0.compare_price
    let vimg := get_variant_image first_variant parent_images [] (r"")
    let fr1 := { fr with
      variant_price := some price,
      variant_compare_at_price := some compare }
    let fr2 := if vimg != r"" then { fr1 with variant_image := some vimg } else fr1
    (addFirstRowOptions av fr2, carriedFrom fr2)
  | [] =>
    ({ fr with
       variant_price := some prev0.price,
       variant_compare_at_price := some prev0.compare_price }, prev0)

/-- The secondary image rows (source lines 256-270): one per parsed image
beyond the first, positions 2.., carrying Handle, image fields, Tags,
metafields and the category metafields but nothing else. -/
def mkImageRows (parent_row : Record) (base_row : Row) (parent_images : List Img) :
    List Row :=
  (parent_images.drop 1).enum.map fun q =>
    { handle := some parent_row.post_title,
      image_src := some q.2.url,
      image_alt_text := some q.2.alt,
      image_position := some (q.1 + 2),
      tags := base_row.tags,
      metafields := base_row.metafields,
      category := base_row.category,
      sub_category := base_row.sub_category }

/-- The variant-row option loop (source lines 324-329). -/
def addVariantOptions : List (String × String) → Row → Row
  | [], r => r
  | q :: rest, r =>
    let name1 := if pyLower q.1 == r"sizes" then (r"Size") else q.1
    addVariantOptions rest
      { r with options := r.options ++ [(pyCapitalize name1, q.2)] }

/-- One iteration of the combination loop (source lines 281-331): match a
child, resolve prices and image with the cascading fallback, update the
carried state from the resolved row, then append the option pairs. -/
def processCombination (children : List Record) (attr_names : List String)
    (parent_images : List Img) (base : Row) (prev : VariantData)
    (combo : List String) : Row × VariantData :=
  let row :=
    match findMatchingChild children attr_names combo with
    | some child =>
      let price := child.sale_price.getD (child.regular_price.getD prev.price)
      let compare := child.regular_price.getD prev.compare_price
      let vimg := get_variant_image child parent_images combo prev.image
      let r1 := { base with
        variant_price := some price,
        variant_compare_at_price := some compare }
      if vimg != r"" then { r1 with variant_image := some vimg } else r1
    | none =>
      { base with
        variant_price := some prev.price,
        variant_compare_at_price := some prev.compare_price,
        variant_image := some prev.image }
  (addVariantOptions (attr_names.zip combo) row, carriedFrom row)

/-- The combination loop itself, threading the carried state. -/
def mkVariantRows (children : List Record) (attr_names : List String)
    (parent_images : List Img) (base : Row) :
    VariantData → List (List String) → List Row
  | _, [] => []
  | prev, combo :: rest =>
    let pr := processCombination children attr_names parent_images base prev combo
    pr.1 :: mkVariantRows children attr_names parent_images base pr.2 rest

/-- The variant-row block guard and invocation (source lines 272-331). -/
def variantRowsOf (parent_row : Record) (children : List Record)
    (variant_attrs : List String) (metafield_attrs : List MetaAttr) : List Row :=
  let av := attributeValuesOf children variant_attrs
  if av ≠ [] ∧ children ≠ [] then
    mkVariantRows children (av.map fun q => q.1) (parse_images parent_row.images)
      (mkBaseRow parent_row children metafield_attrs)
      (mkFirstRow children av (parse_images parent_row.images)
        (mkBaseRow parent_row children metafield_attrs)
        { price := parent_row.regular_price.getD (r""),
          compare_price := parent_row.sale_price.getD (r""),
          image := r"" }).2
      (nonPrimaryCombos (av.map fun q => q.2))
  else []

/-- Function `create_variant_rows`: the primary row, then the secondary image rows,
then the variant rows, exactly in source emission order. -/
def create_variant_rows (parent_row : Record) (children : List Record)
    (variant_attrs : List String) (metafield_attrs : List MetaAttr) : List Row :=
  (mkFirstRow children (attributeValuesOf children variant_attrs)
      (parse_images parent_row.images)
      (mkBaseRow parent_row children metafield_attrs)
      { price := parent_row.regular_price.getD (r""),
        compare_price := parent_row.sale_price.getD (r""),
        image := r"" }).1 ::
    mkImageRows parent_row (mkBaseRow parent_row children metafield_attrs)
      (parse_images parent_row.images) ++
    variantRowsOf parent_row children variant_attrs metafield_attrs

/-! ## Batch loop (`convert_wordpress_to_shopify` lines 335-355 and `main`
lines 401-436)

The per-product loop has no error handling: an exception raised while
processing one product group propagates out of the loop (modelled by the
`Except` short-circuit below, the shallow embedding of Python exception
propagation through a `for` loop) and is caught only by the whole-run
`try`/`except` in `main`, which reports a single error and produces no
output rows. -/

/-- The conversion loop over product groups: each group is processed by
`process` (which may fail, as `create_variant_rows` may raise); its rows
are appended; a failure anywhere aborts the loop with that error. -/
def convertGroups (process : Record → Except String (List Row)) :
    List Record → Except String (List Row)
  | [] => Except.ok []
  | g :: gs =>
    match process g with
    | Except.error e => Except.error e
    | Except.ok rows =>
      match convertGroups process gs with
      | Except.error e => Except.error e
      | Except.ok rest => Except.ok (rows ++ rest)

/-- The `main` handler: on success the output rows and no error, on any
exception no rows and the single batch-level error message. -/
def runBatch (r : Except String (List Row)) : List Row × Option String :=
  match r with
  | Except.ok rows => (rows, none)
  | Except.error e => ([], some e)

/-! ## General helper lemmas -/

/-- Function `get_option_values` over an empty child list is empty. -/
lemma get_option_values_nil (a : String) : get_option_values [] a = [] := rfl

/-- With no children no variant attribute survives the non-empty filter. -/
lemma attributeValuesOf_nil (va : List String) : attributeValuesOf [] va = [] := by
  induction va with
  | nil => rfl
  | cons a va ih =>
    unfold attributeValuesOf at ih ⊢
    rw [List.filterMap_cons]
    simpa [get_option_values_nil] using ih

/-- Every secondary image row carries only the image, handle, tag, category
and metafield fields. -/
lemma mem_mkImageRows (p : Record) (b : Row) (imgs : List Img) :
    ∀ r ∈ mkImageRows p b imgs,
      r.options = [] ∧ r.variant_price = none ∧ r.variant_compare_at_price = none ∧
        r.variant_image = none := by
  intro r hr
  unfold mkImageRows at hr
  obtain ⟨q, _, rfl⟩ := List.mem_map.mp hr
  exact ⟨rfl, rfl, rfl, rfl⟩

/-- Row count of the secondary image block. -/
lemma length_mkImageRows (p : Record) (b : Row) (imgs : List Img) :
    (mkImageRows p b imgs).length = imgs.length - 1 := by
  simp [mkImageRows, List.enum_length]

/-- Row count of the variant block equals the number of combinations fed in. -/
lemma length_mkVariantRows (ch : List Record) (names : List String)
    (imgs : List Img) (b : Row) (prev : VariantData) (combos : List (List String)) :
    (mkVariantRows ch names imgs b prev combos).length = combos.length := by
  induction combos generalizing prev with
  | nil => rfl
  | cons c cs ih => simp [mkVariantRows, ih]

/-- The option loop of a variant row only appends option pairs. -/
lemma addVariantOptions_fields (l : List (String × String)) (r : Row) :
    (addVariantOptions l r).image_position = r.image_position ∧
      (addVariantOptions l r).variant_price = r.variant_price ∧
      (addVariantOptions l r).variant_image = r.variant_image := by
  induction l generalizing r with
  | nil => exact ⟨rfl, rfl, rfl⟩
  | cons q rest ih => simpa [addVariantOptions] using ih _

/-- A variant row inherits `Image Position` (namely, no such key) from the
copied base row. -/
lemma processCombination_image_position (ch : List Record) (names : List String)
    (imgs : List Img) (b : Row) (prev : VariantData) (combo : List String) :
    (processCombination ch names imgs b prev combo).1.image_position =
      b.image_position := by
  unfold processCombination
  rw [(addVariantOptions_fields _ _).1]
  cases findMatchingChild ch names combo <;> simp only [] <;> split <;> rfl

/-- Function `mkFirstRow` with no children emits the parental prices and updates
nothing. -/
lemma mkFirstRow_nil (av : List (String × List String)) (imgs : List Img)
    (b : Row) (prev0 : VariantData) :
    mkFirstRow [] av imgs b prev0 =
      ((match imgs with
        | img0 :: _ =>
          { b with
            image_src := some img0.url,
            image_alt_text := some img0.alt,
            image_position := some 1,
            variant_price := some prev0.price,
            variant_compare_at_price := some prev0.compare_price }
        | [] =>
          { b with
            variant_price := some prev0.price,
            variant_compare_at_price := some prev0.compare_price }), prev0) := by
  cases imgs <;> rfl

/-! ## Claim C7 -/

/-- C7: `parse_images` on `"http://a.jpg!alt :Red|http://b.jpg"` yields
exactly the two entries `(url "http://a.jpg", alt "Red")` at position 1 and
`(url "http://b.jpg", alt "")` at position 2, positions being the 1-based
indices of the returned list. -/
theorem C7_parse_images :
    parse_images (some (r"http://a.jpg!alt :Red|http://b.jpg")) =
      [{ url := r"http://a.jpg", alt := r"Red" },
       { url := r"http://b.jpg", alt := r"" }] := by
  decide

/-! ## Claim C2 -/

/-- C2 counterexample: for sorted value lists `color = [Blue, Red]` and
`size = [M, S]` the generator does NOT produce the order
`(Blue,M), (Blue,S), (Red,S)` claimed by the spec — `(Blue,S)` (which the
claim says is the skipped primary) is among the emitted combinations, and
the emitted list differs from the claimed one. -/
theorem C2_counterexample :
    ([r"Blue", r"S"] ∈ nonPrimaryCombos [[r"Blue", r"Red"], [r"M", r"S"]]) ∧
      nonPrimaryCombos [[r"Blue", r"Red"], [r"M", r"S"]] ≠
        [[r"Blue", r"M"], [r"Blue", r"S"], [r"Red", r"S"]] := by
  decide

/-- Concrete product group realizing `color = [Blue, Red]`, `size = [M, S]`. -/
def pC2 : Record :=
  { post_title := r"p", post_excerpt := none, post_status := r"publish",
    regular_price := some (r"5"), sale_price := none, images := none,
    tax_product_cat := none, attrs := [] }

/-- Child with color Blue, size M. -/
def childC2a : Record :=
  { post_title := r"c", post_excerpt := none, post_status := r"publish",
    regular_price := some (r"7"), sale_price := none, images := none,
    tax_product_cat := none,
    attrs := [((r"meta:attribute_pa_color"), r"Blue"),
              ((r"meta:attribute_pa_size"), r"M")] }

/-- Child with color Red, size S. -/
def childC2b : Record :=
  { post_title := r"c", post_excerpt := none, post_status := r"publish",
    regular_price := none, sale_price := some (r"19.99"), images := none,
    tax_product_cat := none,
    attrs := [((r"meta:attribute_pa_color"), r"Red"),
              ((r"meta:attribute_pa_size"), r"S")] }

/-- C2 (amended): for `color = [Blue, Red]`, `size = [M, S]` the generator
skips the primary combination `(Blue, M)` (each attribute's first value)
and emits the non-primary combinations in exactly the order
`(Blue,S), (Red,M), (Red,S)`, the first attribute varying slowest and the
last attribute varying fastest; the assembled variant rows of a product
group realizing these attribute sets carry exactly those option values in
that order. -/
theorem C2_amended :
    nonPrimaryCombos [[r"Blue", r"Red"], [r"M", r"S"]] =
      [[r"Blue", r"S"], [r"Red", r"M"], [r"Red", r"S"]] ∧
    ((create_variant_rows pC2 [childC2a, childC2b] [r"color", r"size"] []).drop 1).map
        (fun row => row.options.map fun q => q.2) =
      [[r"Blue", r"S"], [r"Red", r"M"], [r"Red", r"S"]] := by
  decide

/-! ## Claim C4 -/

/-- Matcher as the claim words it: a present and non-empty cell must equal
the whole *trimmed* cell or one of its trimmed pipe-delimited pieces; a
missing or empty cell never disqualifies.  (Spec-side definition, written
from the claim's words for comparison with the source matcher.) -/
def childMatchesSpec (attr_names : List String) (combo : List String)
    (child : Record) : Bool :=
  (attr_names.zip combo).all fun q =>
    match getAttr child ((r"meta:attribute_pa_") ++ q.1) with
    | none => true
    | some cv =>
      if pyStrip cv == r"" then true
      else (q.2 == pyStrip cv) || ((pySplit '|' cv).map pyStrip).contains q.2

/-- Child whose color cell is `" Red"` (leading blank, no pipe). -/
def childC4 : Record :=
  { post_title := r"c", post_excerpt := none, post_status := r"publish",
    regular_price := none, sale_price := none, images := none,
    tax_product_cat := none,
    attrs := [((r"meta:attribute_pa_color"), r" Red")] }

/-- C4 counterexample: for the combination `color = Red` the child whose
cell is `" Red"` satisfies the claim's matching rule (value equals the
whole trimmed cell), yet the code's matcher rejects it — a pipe-free cell
is compared whole and unstripped — so the scan returns no match. -/
theorem C4_counterexample :
    childMatchesSpec [r"color"] [r"Red"] childC4 = true ∧
      findMatchingChild [childC4] [r"color"] [r"Red"] = none := by
  decide

/-- Matcher as amended: a present cell containing `|` must contain the
value among its trimmed pipe pieces; a pipe-free cell (even empty or
untrimmed) must equal the value exactly as stored; a missing (NaN) cell
never disqualifies. -/
def childMatchesAmended (attr_names : List String) (combo : List String)
    (child : Record) : Bool :=
  (attr_names.zip combo).all fun q =>
    match getAttr child ((r"meta:attribute_pa_") ++ q.1) with
    | none => true
    | some cv =>
      if pyInChar '|' cv then ((pySplit '|' cv).map pyStrip).contains q.2
      else q.2 == cv

/-- The code's per-child test coincides with the amended wording. -/
lemma childMatches_eq_amended (names : List String) (combo : List String)
    (c : Record) : childMatches names combo c = childMatchesAmended names combo c := by
  unfold childMatches childMatchesAmended
  have h : ∀ q : String × String,
      (match getAttr c ((r"meta:attribute_pa_") ++ q.1) with
        | none => true
        | some cv =>
          let child_values := if pyInChar '|' cv then (pySplit '|' cv).map pyStrip else [cv]
          child_values.contains q.2) =
      (match getAttr c ((r"meta:attribute_pa_") ++ q.1) with
        | none => true
        | some cv =>
          if pyInChar '|' cv then ((pySplit '|' cv).map pyStrip).contains q.2
          else q.2 == cv) := by
    intro q
    cases hA : getAttr c ((r"meta:attribute_pa_") ++ q.1) with
    | none => rfl
    | some cv =>
      by_cases hp : pyInChar '|' cv
      · simp [hp]
      · have hc : List.contains [cv] q.2 = (q.2 == cv) := by
          cases hq : q.2 == cv <;> simp [List.contains, List.elem, hq]
        simp only [hp, if_neg, Bool.false_eq_true, not_false_eq_true, hc]
  exact congrArg _ (funext h)

/-- C4 (amended): the child row matcher returns the first child in original
record order that, for every `(attribute, value)` pair of the combination,
either has no cell (NaN) for that attribute, or — when the cell contains a
pipe — contains the value among the cell's trimmed pipe-delimited pieces,
or — when it does not — has the value equal to the whole cell exactly as
stored (unstripped); if no child fully matches, the result is no match. -/
theorem C4_amended (children : List Record) (names : List String)
    (combo : List String) :
    findMatchingChild children names combo =
      children.find? (childMatchesAmended names combo) := by
  unfold findMatchingChild
  have h : childMatches names combo = childMatchesAmended names combo :=
    funext (childMatches_eq_amended names combo)
  rw [h]

/-! ## Claim C5 -/

/-- Parent with zero children, zero images, and a regular price. -/
def pC5price : Record :=
  { post_title := r"t", post_excerpt := none, post_status := r"publish",
    regular_price := some (r"10"), sale_price := none, images := none,
    tax_product_cat := none, attrs := [] }

/-- Parent with zero children and two images. -/
def pC5imgs : Record :=
  { post_title := r"t", post_excerpt := none, post_status := r"publish",
    regular_price := none, sale_price := none, images := some (r"a.jpg|b.jpg"),
    tax_product_cat := none, attrs := [] }

/-- C5 counterexample: with zero children and zero images the single output
row carries the parent's price (`10`), not an empty price field; and with
zero children but two images the output is two rows, not only the primary
row. -/
theorem C5_counterexample :
    ((create_variant_rows pC5price [] [] []).map fun row => row.variant_price) =
        [some (r"10")] ∧
      (create_variant_rows pC5imgs [] [] []).length = 2 := by
  decide

/-- C5 (amended): for every product group with zero children, the output is
the primary row plus one secondary image row per parsed image beyond the
first (so exactly one row when there are no images), no row carries any
option column, and the primary row's price fields are the parent's regular
and sale price cells (the empty string when those are missing). -/
theorem C5_amended (p : Record) (va : List String) (ma : List MetaAttr) :
    (create_variant_rows p [] va ma).length =
        1 + ((parse_images p.images).length - 1) ∧
      ((create_variant_rows p [] va ma).all fun row => row.options.isEmpty) = true ∧
      ((create_variant_rows p [] va ma).head?.map fun row => row.variant_price) =
        some (some (p.regular_price.getD (r""))) ∧
      ((create_variant_rows p [] va ma).head?.map fun row => row.variant_compare_at_price) =
        some (some (p.sale_price.getD (r""))) := by
  have hav : attributeValuesOf [] va = [] := attributeValuesOf_nil va
  have hvr : variantRowsOf p [] va ma = [] := by
    unfold variantRowsOf
    rw [hav]
    simp
  unfold create_variant_rows
  rw [hav, hvr, mkFirstRow_nil]
  have hbase : (mkBaseRow p [] ma).options = [] := rfl
  refine ⟨?_, ?_, ?_, ?_⟩
  · simp [length_mkImageRows]
    omega
  · rw [List.all_eq_true]
    intro row hrow
    rw [List.append_nil] at hrow
    rcases List.mem_cons.mp hrow with h1 | h2
    · subst h1
      cases hpi : parse_images p.images <;> simp [List.isEmpty_iff, hbase]
    · simp [List.isEmpty_iff, (mem_mkImageRows _ _ _ row h2).1]
  · cases parse_images p.images with
    | nil => rfl
    | cons i rest => rfl
  · cases parse_images p.images with
    | nil => rfl
    | cons i rest => rfl

/-! ## Claim C6 -/

/-- C6 (amended): if processing any product group fails, the whole
conversion aborts — the batch produces no output rows at all (not even for
the product groups that would have succeeded) and reports a single
batch-level error. -/
theorem C6_amended (process : Record → Except String (List Row))
    (gs : List Record) (h : ∃ g ∈ gs, ∃ e, process g = Except.error e) :
    (runBatch (convertGroups process gs)).1 = [] ∧
      (runBatch (convertGroups process gs)).2.isSome = true := by
  revert h
  induction gs with
  | nil =>
    rintro ⟨g, hg, -⟩
    exact absurd hg (List.not_mem_nil g)
  | cons g gs ih =>
    rintro ⟨g0, hg0, e0, he0⟩
    cases hp : process g with
    | error e => simp [convertGroups, hp, runBatch]
    | ok rows =>
      have hmem : g0 ∈ gs := by
        rcases List.mem_cons.mp hg0 with h1 | h1
        · subst h1
          rw [hp] at he0
          cases he0
        · exact h1
      have hrec := ih ⟨g0, hmem, e0, he0⟩
      cases hconv : convertGroups process gs with
      | error e => simp [convertGroups, hp, hconv, runBatch]
      | ok rest =>
        rw [hconv] at hrec
        simp [runBatch] at hrec

/-- Parent record whose processing fails (stand-in for a group whose
`create_variant_rows` call raises, e.g. on a malformed attribute cell). -/
def pC6bad : Record :=
  { post_title := r"bad", post_excerpt := none, post_status := r"publish",
    regular_price := none, sale_price := none, images := none,
    tax_product_cat := none, attrs := [] }

/-- Parent record whose processing succeeds. -/
def pC6good : Record :=
  { post_title := r"good", post_excerpt := none, post_status := r"publish",
    regular_price := some (r"3"), sale_price := none, images := none,
    tax_product_cat := none, attrs := [] }

/-- Per-group processing for the C6 scenario: the bad group raises, every
other group returns its `create_variant_rows` output. -/
def processC6 : Record → Except String (List Row) := fun p =>
  if p.post_title == r"bad" then Except.error (r"malformed attribute cell")
  else Except.ok (create_variant_rows p [] [] [])

/-- C6 counterexample: with one failing group and one group that produces a
non-empty row list, the batch reports the single error and emits NO rows at
all — the successful group's rows are lost, contradicting the claim that
the conversion still produces the rows of every other product group. -/
theorem C6_counterexample :
    runBatch (convertGroups processC6 [pC6bad, pC6good]) =
        ([], some (r"malformed attribute cell")) ∧
      processC6 pC6good = Except.ok (create_variant_rows pC6good [] [] []) ∧
      (create_variant_rows pC6good [] [] []).length = 1 := by
  refine ⟨by decide, rfl, by decide⟩

/-- C6 amended witness: the amended theorem applied to the concrete failing
batch. -/
theorem C6_amended_witness :
    (runBatch (convertGroups processC6 [pC6bad, pC6good])).1 = [] ∧
      (runBatch (convertGroups processC6 [pC6bad, pC6good])).2.isSome = true :=
  C6_amended processC6 [pC6bad, pC6good]
    ⟨pC6bad, by decide, r"malformed attribute cell", rfl⟩

/-! ## Claim C3 -/

/-- C3: when the combination loop finds a matching child whose own
`sale_price` and `regular_price` cells are both missing, the row's resolved
`Variant Price` is exactly the carried value `prev.price` — the value
resolved for the previously processed combination, not the parent's
original price (the parent's prices enter only as the initial carried
state) — and the carried state handed to the next combination equals that
same value. -/
theorem C3_price_fallback (children : List Record) (names : List String)
    (imgs : List Img) (base : Row) (prev : VariantData) (combo : List String)
    (child : Record)
    (hm : findMatchingChild children names combo = some child)
    (hs : child.sale_price = none) (hr : child.regular_price = none) :
    (processCombination children names imgs base prev combo).1.variant_price =
        some prev.price ∧
      (processCombination children names imgs base prev combo).2.price =
        prev.price := by
  unfold processCombination
  rw [hm]
  constructor
  · rw [(addVariantOptions_fields _ _).2.1]
    simp only [hs, hr, Option.getD_none]
    split <;> rfl
  · simp only [carriedFrom, hs, hr, Option.getD_none]
    split <;> rfl

/-- Child matching `size = M` with no price cells of its own. -/
def childC3 : Record :=
  { post_title := r"c", post_excerpt := none, post_status := r"publish",
    regular_price := none, sale_price := none, images := none,
    tax_product_cat := none, attrs := [((r"meta:attribute_pa_size"), r"M")] }

/-- C3 witness: with the carried state holding `19.99` (resolved by a prior
sibling) and a matched child without price cells, the row resolves to
`19.99` and carries `19.99` forward. -/
theorem C3_price_fallback_witness :
    (processCombination [childC3] [r"size"] [] {}
          { price := r"19.99", compare_price := r"25", image := r"" }
          [r"M"]).1.variant_price = some (r"19.99") ∧
      (processCombination [childC3] [r"size"] [] {}
          { price := r"19.99", compare_price := r"25", image := r"" }
          [r"M"]).2.price = r"19.99" :=
  C3_price_fallback [childC3] [r"size"] [] {}
    { price := r"19.99", compare_price := r"25", image := r"" } [r"M"]
    childC3 (by decide) rfl rfl

/-! ## Claim C10 -/

/-- Parent for the C10 scenario: no images of its own. -/
def pC10 : Record :=
  { post_title := r"p", post_excerpt := none, post_status := r"publish",
    regular_price := some (r"5"), sale_price := none, images := none,
    tax_product_cat := none, attrs := [] }

/-- First child (`size = L`): its own image `a.jpg` seeds the carried image. -/
def childC10a : Record :=
  { post_title := r"c1", post_excerpt := none, post_status := r"publish",
    regular_price := none, sale_price := none, images := some (r"a.jpg"),
    tax_product_cat := none, attrs := [((r"meta:attribute_pa_size"), r"L")] }

/-- Second child (`size = M`): its `images` cell `"!"` parses to one entry
with an empty URL. -/
def childC10b : Record :=
  { post_title := r"c2", post_excerpt := none, post_status := r"publish",
    regular_price := none, sale_price := none, images := some (r"!"),
    tax_product_cat := none, attrs := [((r"meta:attribute_pa_size"), r"M")] }

/-- C10 counterexample: the primary row resolves its variant image to
`a.jpg`, so the carried image is non-empty when the combination `size = M`
is processed; yet that combination's row resolves an EMPTY variant image —
the matched child's `images` cell `"!"` parses to a non-empty list whose
first URL is empty, `get_variant_image` returns it, the falsy value leaves
the row without a `Variant Image` key, and the carried state reverts to
empty. -/
theorem C10_counterexample :
    ((create_variant_rows pC10 [childC10a, childC10b] [r"size"] []).map
        fun row => row.variant_image.getD (r"")) = [r"a.jpg", r""] := by
  decide

/-- A child record whose own `images` cell, when it parses to a non-empty
list, has a non-empty first URL (the only child shape that can feed an
empty string into the image cascade). -/
def childImageOk (c : Record) : Bool :=
  match parse_images c.images with
  | [] => true
  | i :: _ => i.url != r""

/-- A string whose character list is empty is the empty string. -/
lemma toList_eq_nil (s : String) (h : s.toList = []) : s = r"" := by
  cases s with
  | mk data =>
    simp only [String.toList] at h
    subst h
    rfl

/-- Lower-casing never empties a string. -/
lemma pyLower_eq_empty (s : String) (h : pyLower s = r"") : s = r"" := by
  apply toList_eq_nil
  have h2 : s.toList.map Char.toLower = [] := congrArg String.toList h
  exact List.map_eq_nil.mp h2

/-- A substring of the empty string is itself empty: the image-fallback
scan can therefore never select an empty-URL parent image from a non-empty
needle. -/
lemma pyInStr_empty_haystack (sub : String) (h : pyInStr sub (r"") = true) :
    sub = r"" := by
  apply toList_eq_nil
  cases hs : sub.toList with
  | nil => rfl
  | cons c cs =>
    exfalso
    unfold pyInStr at h
    rw [hs] at h
    have h0 : ((r"") : String).toList = [] := rfl
    rw [h0] at h
    simp [List.isPrefixOf] at h

/-- C10 (amended): within one product group the carried `Variant Image`
never reverts to empty as long as the combination values are non-empty
strings (always true for generated combinations, whose values survive the
non-empty filter of the catalog builder) and the matched child (when one
exists) does not carry an `images` cell parsing to a non-empty list whose
first URL is empty: under those provisos, if the carried image is
non-empty then the combination's resolved `Variant Image` — which is
exactly what the updated carried state holds — is also non-empty, whether
or not a matching child is found.  (The counterexample shows the child
proviso is necessary: a child `images` cell like `"!"` parses to a first
entry with empty URL and does revert the carried state.  No assumption on
the parent image URLs is needed: an empty-URL parent image can never be
selected by the substring scan, because a non-empty combination value is
never a substring of the empty URL.) -/
theorem C10_amended (children : List Record) (names : List String)
    (imgs : List Img) (base : Row) (prev : VariantData) (combo : List String)
    (hprev : prev.image ≠ r"")
    (hcombo : (combo.all fun v => v != r"") = true)
    (hchild : (match findMatchingChild children names combo with
               | none => true
               | some c => childImageOk c) = true) :
    (processCombination children names imgs base prev combo).2.image ≠ r"" ∧
      (processCombination children names imgs base prev combo).2.image =
        ((processCombination children names imgs base prev combo).1.variant_image).getD
          (r"") := by
  have fromParent_ok : ∀ u,
      ((imgs.find? fun img => combo.any fun attr_val =>
          pyInStr (pyLower attr_val) (pyLower img.url)).map (fun img => img.url)) = some u →
      u ≠ r"" := by
    intro u hu
    obtain ⟨img, hfind, rfl⟩ := Option.map_eq_some'.mp hu
    have hpred := List.find?_some hfind
    obtain ⟨attr_val, hmem, hin⟩ := List.any_eq_true.mp hpred
    intro hurl
    rw [hurl] at hin
    have hlow : pyLower (r"") = r"" := rfl
    rw [hlow] at hin
    have hv0 : pyLower attr_val = r"" := pyInStr_empty_haystack _ hin
    have hav : attr_val = r"" := pyLower_eq_empty _ hv0
    have hne := List.all_eq_true.mp hcombo attr_val hmem
    rw [hav] at hne
    simp at hne
  unfold processCombination
  cases hm : findMatchingChild children names combo with
  | none =>
    refine ⟨?_, ?_⟩
    · simpa [carriedFrom] using hprev
    · rw [(addVariantOptions_fields _ _).2.2]
      rfl
  | some c =>
    rw [hm] at hchild
    have hv : get_variant_image c imgs combo prev.image ≠ r"" := by
      unfold get_variant_image
      cases hci : c.images with
      | none =>
        simp only []
        cases hfp : ((imgs.find? fun img => combo.any fun attr_val =>
            pyInStr (pyLower attr_val) (pyLower img.url)).map fun img => img.url) with
        | some u => simpa [hfp] using fromParent_ok u hfp
        | none =>
          simp only [hfp]
          rw [if_pos (bne_iff_ne.mpr hprev)]
          exact hprev
      | some s =>
        simp only []
        cases hpi : parse_images (some s) with
        | cons i rest =>
          simp only [childImageOk, hci, hpi] at hchild
          exact bne_iff_ne.mp hchild
        | nil =>
          cases hfp : ((imgs.find? fun img => combo.any fun attr_val =>
              pyInStr (pyLower attr_val) (pyLower img.url)).map fun img => img.url) with
          | some u => simpa [hfp] using fromParent_ok u hfp
          | none =>
            simp only [hfp]
            rw [if_pos (bne_iff_ne.mpr hprev)]
            exact hprev
    have hif : (get_variant_image c imgs combo prev.image != r"") = true :=
      bne_iff_ne.mpr hv
    refine ⟨?_, ?_⟩
    · simp only [hif, if_true, carriedFrom]
      simpa using hv
    · rw [(addVariantOptions_fields _ _).2.2]
      rfl

/-- Child matching `size = M` with no images of its own. -/
def childC10w : Record :=
  { post_title := r"c", post_excerpt := none, post_status := r"publish",
    regular_price := none, sale_price := none, images := none,
    tax_product_cat := none, attrs := [((r"meta:attribute_pa_size"), r"M")] }

/-- C10 amended witness: with carried image `a.jpg`, no parent images to
match and a matched child without an own image, the resolved and carried
image stays `a.jpg`. -/
theorem C10_amended_witness :
    (processCombination [childC10w] [r"size"] [] {}
          { price := r"", compare_price := r"", image := r"a.jpg" }
          [r"M"]).2.image ≠ r"" ∧
      (processCombination [childC10w] [r"size"] [] {}
          { price := r"", compare_price := r"", image := r"a.jpg" }
          [r"M"]).2.image =
        ((processCombination [childC10w] [r"size"] [] {}
            { price := r"", compare_price := r"", image := r"a.jpg" }
            [r"M"]).1.variant_image).getD (r"") :=
  C10_amended [childC10w] [r"size"] [] {}
    { price := r"", compare_price := r"", image := r"a.jpg" } [r"M"]
    (by decide) (by decide) (by decide)

/-! ## Claim C8 -/

/-- C8: every secondary image row carries no `Variant Price`, no
`Variant Compare At Price` and no option columns; and every variant row —
built from the copied base row of its product group — carries no
`Image Position` field. -/
theorem C8_frame (p : Record) (ch : List Record) (ma : List MetaAttr)
    (b : Row) (imgs : List Img) (names : List String) (prev : VariantData)
    (combos : List (List String)) :
    ((mkImageRows p b imgs).all fun row =>
        row.variant_price.isNone && row.variant_compare_at_price.isNone &&
          row.options.isEmpty) = true ∧
      ((mkVariantRows ch names imgs (mkBaseRow p ch ma) prev combos).all fun row =>
        row.image_position.isNone) = true := by
  constructor
  · rw [List.all_eq_true]
    intro row hrow
    obtain ⟨h1, h2, h3, -⟩ := mem_mkImageRows _ _ _ row hrow
    simp [h1, h2, h3]
  · have key : ∀ (combos : List (List String)) (prev : VariantData) (b : Row),
        b.image_position = none →
        ((mkVariantRows ch names imgs b prev combos).all fun row =>
          row.image_position.isNone) = true := by
      intro combos
      induction combos with
      | nil => intro prev b _; rfl
      | cons c cs ih =>
        intro prev b hb
        have h1 : (processCombination ch names imgs b prev c).1.image_position = none := by
          rw [processCombination_image_position, hb]
        simp [mkVariantRows, List.all_cons, h1, ih _ _ hb]
    exact key combos prev _ rfl

/-! ## Claim C9 -/

/-- The `sizes → Size` renaming never turns the color test on or off. -/
lemma colorCheck (s : String) :
    (pyLower (if pyLower s == r"sizes" then (r"Size") else s) == r"color") =
      (pyLower s == r"color") := by
  by_cases h : (pyLower s == r"sizes") = true
  · rw [if_pos h, eq_of_beq h]
    decide
  · rw [if_neg h]

/-- One unfolding step of the first-row option loop, stated without
let-bindings and with the color test rewritten to the attribute's original
name via `colorCheck`. -/
lemma addFirstRowOptions_cons (q : String × List String)
    (rest : List (String × List String)) (r : Row) :
    addFirstRowOptions (q :: rest) r =
      addFirstRowOptions rest
        { (if (pyLower q.1 == r"color") = true then
             { r with image_alt_text := some (q.2.headD (r"")) }
           else r) with
          options :=
            (if (pyLower q.1 == r"color") = true then
               { r with image_alt_text := some (q.2.headD (r"")) }
             else r).options ++
              [(pyCapitalize (if pyLower q.1 == r"sizes" then (r"Size") else q.1),
                q.2.headD (r""))] } := by
  simp only [addFirstRowOptions]
  rw [colorCheck]

/-- After the first-row option loop, `Image Alt Text` is the head value of
the last color-named attribute, or unchanged when no attribute is named
color. -/
lemma addFirstRowOptions_alt (av : List (String × List String)) (r : Row) :
    (addFirstRowOptions av r).image_alt_text =
      match (av.filter fun q => pyLower q.1 == r"color").getLast? with
      | some q => some (q.2.headD (r""))
      | none => r.image_alt_text := by
  induction av generalizing r with
  | nil => rfl
  | cons q rest ih =>
    rw [addFirstRowOptions_cons, ih, List.filter_cons]
    by_cases hcol : (pyLower q.1 == r"color") = true
    · rw [if_pos hcol, if_pos hcol, List.getLast?_cons]
      cases hlast : (List.filter (fun q => pyLower q.1 == r"color") rest).getLast? with
      | some q2 => simp [hlast]
      | none => simp [hlast]
    · rw [if_neg hcol, if_neg hcol]

/-- Secondary image rows keep exactly the parsed alt texts of the images
beyond the first, in order. -/
lemma mkImageRows_alts (p : Record) (b : Row) (imgs : List Img) :
    ((mkImageRows p b imgs).map fun row => row.image_alt_text) =
      (imgs.drop 1).map fun im => some im.alt := by
  unfold mkImageRows
  rw [List.map_map]
  unfold List.enum
  generalize imgs.drop 1 = l
  induction l generalizing b with
  | nil => rfl
  | cons x xs ih =>
    have haux : ∀ (n : Nat) (l : List Img),
        (List.enumFrom n l).map
            ((fun row => row.image_alt_text) ∘ fun q =>
              ({ handle := some p.post_title, image_src := some q.2.url,
                 image_alt_text := some q.2.alt, image_position := some (q.1 + 2),
                 tags := b.tags, metafields := b.metafields, category := b.category,
                 sub_category := b.sub_category } : Row)) =
          l.map fun im => some im.alt := by
      intro n l
      induction l generalizing n with
      | nil => rfl
      | cons y ys ihy => simpa using ihy (n + 1)
    exact haux 0 (x :: xs)

/-- C9: for a product group with at least one child, at least one parent
image and exactly one variant attribute named `color` (case-insensitively)
carrying the non-empty sorted value set `cv`, the primary row's
`Image Alt Text` is the first (sorted-smallest) color value `cv.headD ""`,
overwriting the alt text parsed from the first image, while the secondary
image rows keep exactly their parsed alt texts. -/
theorem C9_color_alt (p : Record) (ch : List Record) (va : List String)
    (ma : List MetaAttr) (cn : String) (cv : List String)
    (hch : ch ≠ [])
    (himg : parse_images p.images ≠ [])
    (hcolor : (attributeValuesOf ch va).filter
        (fun q => pyLower q.1 == r"color") = [(cn, cv)]) :
    ((create_variant_rows p ch va ma).head?.map fun row => row.image_alt_text) =
        some (some (cv.headD (r""))) ∧
      ((mkImageRows p (mkBaseRow p ch ma) (parse_images p.images)).map
          fun row => row.image_alt_text) =
        ((parse_images p.images).drop 1).map fun im => some im.alt := by
  refine ⟨?_, mkImageRows_alts p (mkBaseRow p ch ma) (parse_images p.images)⟩
  obtain ⟨c, ct, rfl⟩ : ∃ c ct, ch = c :: ct := by
    cases ch with
    | nil => exact absurd rfl hch
    | cons c ct => exact ⟨c, ct, rfl⟩
  have hhead : (create_variant_rows p (c :: ct) va ma).head? =
      some ((mkFirstRow (c :: ct) (attributeValuesOf (c :: ct) va)
        (parse_images p.images) (mkBaseRow p (c :: ct) ma)
        { price := p.regular_price.getD (r""),
          compare_price := p.sale_price.getD (r""), image := r"" }).1) := rfl
  rw [hhead, Option.map_some']
  congr 1
  unfold mkFirstRow
  simp only []
  rw [addFirstRowOptions_alt, hcolor]
  rfl

/-- Parent with one image whose parsed alt text is `Old`. -/
def pC9 : Record :=
  { post_title := r"p", post_excerpt := none, post_status := r"publish",
    regular_price := some (r"5"), sale_price := none,
    images := some (r"pic.jpg!alt :Old"), tax_product_cat := none, attrs := [] }

/-- Child carrying the color cell `Blue|Red`. -/
def childC9 : Record :=
  { post_title := r"c", post_excerpt := none, post_status := r"publish",
    regular_price := none, sale_price := none, images := none,
    tax_product_cat := none,
    attrs := [((r"meta:attribute_pa_color"), r"Blue|Red")] }

/-- C9 witness: with one child, one parent image (parsed alt `Old`) and the
color value set `[Blue, Red]`, the primary row's alt text is `Blue` and the
(empty) secondary image row list keeps the parsed alts. -/
theorem C9_color_alt_witness :
    ((create_variant_rows pC9 [childC9] [r"color"] []).head?.map
        fun row => row.image_alt_text) =
      some (some (([r"Blue", r"Red"] : List String).headD (r""))) ∧
    ((mkImageRows pC9 (mkBaseRow pC9 [childC9] []) (parse_images pC9.images)).map
        fun row => row.image_alt_text) =
      ((parse_images pC9.images).drop 1).map fun im => some im.alt :=
  C9_color_alt pC9 [childC9] [r"color"] [] (r"color") [r"Blue", r"Red"]
    (by decide) (by decide) (by decide)

/-! ## Claim C1 -/

/-- Membership in `insertSorted`. -/
lemma mem_insertSorted (a x : String) (l : List String) :
    a ∈ insertSorted x l ↔ a = x ∨ a ∈ l := by
  induction l with
  | nil => simp [insertSorted]
  | cons y ys ih =>
    unfold insertSorted
    by_cases hle : pyLe x y = true
    · simp [hle]
    · simp only [hle, if_false, Bool.false_eq_true, List.mem_cons, ih]
      tauto

/-- Function `insertSorted` keeps a duplicate-free list duplicate-free. -/
lemma nodup_insertSorted (x : String) (l : List String) (hx : x ∉ l)
    (h : l.Nodup) : (insertSorted x l).Nodup := by
  induction l with
  | nil => simp [insertSorted]
  | cons y ys ih =>
    unfold insertSorted
    by_cases hle : pyLe x y = true
    · rw [if_pos hle]
      exact List.nodup_cons.mpr ⟨hx, h⟩
    · rw [if_neg hle]
      rw [List.nodup_cons] at h ⊢
      obtain ⟨hy, hys⟩ := h
      refine ⟨?_, ih (fun hmem => hx (List.mem_cons_of_mem _ hmem)) hys⟩
      intro hyi
      rcases (mem_insertSorted y x ys).mp hyi with h1 | h1
      · exact hx (by rw [h1]; exact List.mem_cons_self _ _)
      · exact hy h1

/-- Sorting preserves membership. -/
lemma mem_sortStrings (a : String) (l : List String) :
    a ∈ sortStrings l ↔ a ∈ l := by
  induction l with
  | nil => simp [sortStrings]
  | cons x xs ih => simp [sortStrings, mem_insertSorted, ih]

/-- Sorting keeps a duplicate-free list duplicate-free. -/
lemma nodup_sortStrings (l : List String) (h : l.Nodup) :
    (sortStrings l).Nodup := by
  induction l with
  | nil => simp [sortStrings]
  | cons x xs ih =>
    rw [List.nodup_cons] at h
    exact nodup_insertSorted x _ (fun hm => h.1 ((mem_sortStrings x xs).mp hm))
      (ih h.2)

/-- Function `dedup` output is duplicate-free. -/
lemma nodup_dedup (l : List String) : (dedup l).Nodup := by
  induction l with
  | nil => simp [dedup]
  | cons x xs ih =>
    unfold dedup
    by_cases hx : x ∈ dedup xs
    · rw [if_pos hx]
      exact ih
    · rw [if_neg hx]
      exact List.nodup_cons.mpr ⟨hx, ih⟩

/-- A collected option value set is duplicate-free (it is a sorted set). -/
lemma nodup_get_option_values (ch : List Record) (a : String) :
    (get_option_values ch a).Nodup := by
  unfold get_option_values sortedSet
  exact nodup_sortStrings _ (nodup_dedup _)

/-- Counting a cons-headed tuple among tuples extended with a fixed head. -/
lemma count_map_cons (a h : String) (p : List String) (X : List (List String)) :
    ((X.map fun c => a :: c).count (h :: p)) = if a = h then X.count p else 0 := by
  induction X with
  | nil => simp
  | cons c X ih =>
    rw [List.map_cons, List.count_cons, ih, List.count_cons]
    by_cases hah : a = h
    · subst hah
      by_cases hpc : c = p
      · subst hpc
        simp
      · simp [hpc]
    · have h1 : ((a :: c) == (h :: p)) = false := by
        simp [hah]
      simp [h1, hah]

/-- Counting the head-extended tuple in one cartesian layer. -/
lemma count_flatten_cons (h : String) (p : List String) (v : List String)
    (X : List (List String)) :
    (((v.map fun a => X.map fun c => a :: c).flatten).count (h :: p)) =
      v.count h * X.count p := by
  induction v with
  | nil => simp
  | cons a v ih =>
    rw [List.map_cons, List.flatten_cons, List.count_append, ih, count_map_cons,
      List.count_cons]
    by_cases hah : a = h
    · subst hah
      simp [Nat.add_mul, Nat.add_comm]
    · simp [hah, fun hh => hah (Eq.symm (eq_of_beq hh))]

/-- The cartesian product has as many tuples as the product of the list
sizes. -/
lemma length_cartProd (ls : List (List String)) :
    (cartProd ls).length = (ls.map List.length).prod := by
  induction ls with
  | nil => rfl
  | cons v vs ih =>
    show ((v.map fun a => (cartProd vs).map fun c => a :: c).flatten).length = _
    rw [List.length_flatten, List.map_map]
    have h1 : (List.length ∘ fun a => (cartProd vs).map fun c => a :: c) =
        fun _ => (cartProd vs).length := by
      funext a
      simp [Function.comp]
    rw [h1, List.map_const', List.sum_replicate, smul_eq_mul, ih, List.map_cons,
      List.prod_cons]

/-- When every value list is non-empty and duplicate-free, the primary
combination occurs exactly once in the cartesian product. -/
lemma count_cartProd_primary (ls : List (List String))
    (h : ∀ l ∈ ls, l ≠ [] ∧ l.Nodup) :
    (cartProd ls).count (primaryCombo ls) = 1 := by
  induction ls with
  | nil => rfl
  | cons v vs ih =>
    have hv := h v (List.mem_cons_self _ _)
    have hhead : v.count (v.headD (r"")) = 1 := by
      apply List.count_eq_one_of_mem hv.2
      cases v with
      | nil => exact absurd rfl hv.1
      | cons x xs => simp
    show (((v.map fun a => (cartProd vs).map fun c => a :: c).flatten).count
        (v.headD (r"") :: primaryCombo vs)) = 1
    rw [count_flatten_cons, hhead, one_mul]
    exact ih fun l hl => h l (List.mem_cons_of_mem _ hl)

/-- Filtering away an element occurring exactly once shortens the list by
exactly one. -/
lemma length_filter_bne_of_count_one (l : List (List String)) (a : List String)
    (h : l.count a = 1) :
    (l.filter fun x => x != a).length = l.length - 1 := by
  induction l with
  | nil => simp at h
  | cons b t ih =>
    rw [List.count_cons] at h
    by_cases hba : b = a
    · subst hba
      simp only [beq_self_eq_true, if_true] at h
      have h0 : t.count b = 0 := by omega
      have hnot : b ∉ t := List.count_eq_zero.mp h0
      rw [List.filter_cons]
      have hcond : (b != b) = false := by simp
      rw [hcond]
      simp only [Bool.false_eq_true, if_false, List.length_cons]
      have hself : t.filter (fun x => x != b) = t := by
        apply List.filter_eq_self.mpr
        intro x hx
        exact bne_iff_ne.mpr fun he => hnot (he ▸ hx)
      rw [hself]
      omega
    · have hba' : (b == a) = false := by simp [hba]
      rw [hba'] at h
      simp only [Bool.false_eq_true, if_false, Nat.add_zero] at h
      rw [List.filter_cons]
      have hcond : (b != a) = true := bne_iff_ne.mpr hba
      rw [hcond]
      simp only [if_true, List.length_cons]
      rw [ih h]
      have hmem : a ∈ t := by
        by_contra hc
        rw [List.count_eq_zero.mpr hc] at h
        omega
      have := List.length_pos_of_mem hmem
      omega

/-- Row count of the non-primary combination list. -/
lemma length_nonPrimaryCombos (ls : List (List String))
    (h : ∀ l ∈ ls, l ≠ [] ∧ l.Nodup) :
    (nonPrimaryCombos ls).length = (ls.map List.length).prod - 1 := by
  unfold nonPrimaryCombos
  rw [length_filter_bne_of_count_one _ _ (count_cartProd_primary ls h),
    length_cartProd]

/-- Every surviving variant attribute carries its (non-empty) collected
value set. -/
lemma attributeValuesOf_mem (ch : List Record) (va : List String)
    (q : String × List String) (hq : q ∈ attributeValuesOf ch va) :
    q.2 ≠ [] ∧ q.2 = get_option_values ch q.1 := by
  unfold attributeValuesOf at hq
  obtain ⟨a, _, hfa⟩ := List.mem_filterMap.mp hq
  by_cases hv : get_option_values ch a = []
  · rw [if_pos hv] at hfa
    cases hfa
  · rw [if_neg hv] at hfa
    cases hfa
    exact ⟨hv, rfl⟩

/-- C1: for every product group the number of emitted rows is
`1 + max(0, k-1) + (Π ci - 1)` where `k` is the number of parsed parent
images and `c1..cn` the sizes of the variant-attribute value sets collected
from the children; when no variant attribute survives (`n = 0`) the count
is `1 + max(0, k-1)` (subtraction is truncated, so `k - 1` is
`max(0, k-1)`). -/
theorem C1_row_count (p : Record) (ch : List Record) (va : List String)
    (ma : List MetaAttr) :
    (create_variant_rows p ch va ma).length =
      1 + ((parse_images p.images).length - 1) +
        (if attributeValuesOf ch va = [] then 0
         else ((attributeValuesOf ch va).map fun q => q.2.length).prod - 1) := by
  have hlen : (create_variant_rows p ch va ma).length =
      1 + (mkImageRows p (mkBaseRow p ch ma) (parse_images p.images)).length +
        (variantRowsOf p ch va ma).length := by
    unfold create_variant_rows
    rw [List.length_append, List.length_cons]
    omega
  rw [hlen, length_mkImageRows]
  by_cases hav : attributeValuesOf ch va = []
  · rw [if_pos hav]
    have hempty : variantRowsOf p ch va ma = [] := by
      simp only [variantRowsOf, hav]
      simp
    rw [hempty]
    simp
  · rw [if_neg hav]
    have hch : ch ≠ [] := fun hnil => hav (by rw [hnil]; exact attributeValuesOf_nil va)
    have hvals : ∀ l ∈ (attributeValuesOf ch va).map (fun q => q.2),
        l ≠ [] ∧ l.Nodup := by
      intro l hl
      obtain ⟨q, hq, rfl⟩ := List.mem_map.mp hl
      obtain ⟨hne, heq⟩ := attributeValuesOf_mem ch va q hq
      refine ⟨hne, ?_⟩
      rw [heq]
      exact nodup_get_option_values ch q.1
    have hvr : (variantRowsOf p ch va ma).length =
        ((attributeValuesOf ch va).map fun q => q.2.length).prod - 1 := by
      simp only [variantRowsOf]
      rw [if_pos ⟨hav, hch⟩, length_mkVariantRows,
        length_nonPrimaryCombos _ hvals, List.map_map]
      rfl
    rw [hvr]
